import Mathlib

/-!
Verification of the kr-stock-flow repository: a shallow embedding of the
data-collection pipeline (`collector.py`), the retry wrapper, the spreadsheet
writer (`excel_writer.py`) and the dashboard loader (`dashboard.py`),
together with theorems settling the specification claims.

Numeric cells are modelled as exact rationals extended with the pandas
special values NaN and plus or minus infinity, so that the semantics of
`Series.fillna`, division by zero and comparisons follows numpy/pandas
(0/0 = NaN, x/0 = plus or minus infinity for x nonzero, NaN > 0 is false).
-/

/-- A pandas numeric cell: a finite value (exact rational), NaN, `inf` or
`-inf`. -/
inductive PVal where
  | num (q : ℚ)
  | nan
  | inf
  | ninf
deriving DecidableEq

/-- `True` exactly on finite values (the values convertible by
`astype("int64")` without raising). -/
def pIsFinite : PVal → Bool
  | PVal.num _ => true
  | _ => false

/-- numpy float division, on extended values: `0/0 = NaN`, `x/0 = ±inf` for
nonzero `x`, NaN propagates. -/
def pdiv : PVal → PVal → PVal
  | _, PVal.nan => PVal.nan
  | PVal.nan, _ => PVal.nan
  | PVal.num a, PVal.num b =>
      if b = 0 then
        (if a = 0 then PVal.nan else if 0 < a then PVal.inf else PVal.ninf)
      else PVal.num (a / b)
  | PVal.inf, PVal.num b => if 0 ≤ b then PVal.inf else PVal.ninf
  | PVal.ninf, PVal.num b => if 0 ≤ b then PVal.ninf else PVal.inf
  | PVal.num _, PVal.inf => PVal.num 0
  | PVal.num _, PVal.ninf => PVal.num 0
  | _, _ => PVal.nan

/-- numpy float multiplication on extended values. -/
def pmul : PVal → PVal → PVal
  | PVal.nan, _ => PVal.nan
  | _, PVal.nan => PVal.nan
  | PVal.num a, PVal.num b => PVal.num (a * b)
  | PVal.inf, PVal.num b =>
      if b = 0 then PVal.nan else if 0 < b then PVal.inf else PVal.ninf
  | PVal.num a, PVal.inf =>
      if a = 0 then PVal.nan else if 0 < a then PVal.inf else PVal.ninf
  | PVal.ninf, PVal.num b =>
      if b = 0 then PVal.nan else if 0 < b then PVal.ninf else PVal.inf
  | PVal.num a, PVal.ninf =>
      if a = 0 then PVal.nan else if 0 < a then PVal.ninf else PVal.inf
  | PVal.inf, PVal.inf => PVal.inf
  | PVal.inf, PVal.ninf => PVal.ninf
  | PVal.ninf, PVal.inf => PVal.ninf
  | PVal.ninf, PVal.ninf => PVal.inf

/-- `Series.fillna`: replaces NaN (and only NaN) by the given default. -/
def pfillna : PVal → PVal → PVal
  | PVal.nan, z => z
  | v, _ => v

/-- Rounding to the nearest integer with ties to even — the rounding used by
Python's built-in `round` and by `Series.round`. -/
def roundHalfEven (q : ℚ) : ℤ :=
  if q - (⌊q⌋ : ℚ) < 1/2 then ⌊q⌋
  else if (1 : ℚ)/2 < q - (⌊q⌋ : ℚ) then ⌊q⌋ + 1
  else if ⌊q⌋ % 2 = 0 then ⌊q⌋ else ⌊q⌋ + 1

/-- `Series.round(4)` on an extended value: finite values are rounded to four
decimal places (half to even); NaN and infinities pass through. -/
def pround4 : PVal → PVal
  | PVal.num q => PVal.num ((roundHalfEven (q * 10000) : ℚ) / 10000)
  | v => v

/-- Truncation toward zero, as performed by `astype("int64")` on a finite
float. -/
def ratTrunc (q : ℚ) : ℚ :=
  if 0 ≤ q then (⌊q⌋ : ℚ) else (⌈q⌉ : ℚ)

/-- `astype("int64")` on one finite cell; non-finite cells are never reached
under the all-finite guard. -/
def ptrunc : PVal → PVal
  | PVal.num q => PVal.num (ratTrunc q)
  | v => v

/-- The pandas comparison `value > 0` (used by the inactive-row filter):
false on NaN and `-inf`, true on `inf`. -/
def pgt0 : PVal → Bool
  | PVal.num q => decide (0 < q)
  | PVal.inf => true
  | _ => false

-- ── configuration (config.py) ────────────────────────────────────────────

/-- `config.MARKETS`. -/
def MARKETS : List String := ["KOSPI", "KOSDAQ"]

/-- `config.INVESTORS`: the twelve investor categories. -/
def INVESTORS : List String :=
  ["개인", "외국인", "기관합계",
   "금융투자", "보험", "투신", "사모",
   "은행", "기타금융", "연기금",
   "기타법인", "기타외국인"]

/-- `config.MAX_RETRIES`. -/
def MAX_RETRIES : ℕ := 2

/-- `config.RETRY_BASE_DELAY` (0.5 seconds, as an exact rational). -/
def RETRY_BASE_DELAY : ℚ := 1/2

/-- `config.COLUMN_ORDER`. -/
def COLUMN_ORDER : List String :=
  ["티커", "종목명", "시장", "종가", "등락률",
   "시가총액", "거래대금", "거래량", "회전율"] ++ INVESTORS

/-- `config.RANKING_INVESTORS` (an ordered dict: investor ↦ sheet name). -/
def RANKING_INVESTORS : List (String × String) :=
  [("외국인", "외국인_TOP50"), ("기관합계", "기관_TOP50"), ("개인", "개인_TOP50")]

/-- `config.RANKING_COLUMN_ORDER`. -/
def RANKING_COLUMN_ORDER : List String :=
  ["티커", "종목명", "시장", "종가", "등락률",
   "시가총액", "거래대금", "거래량", "회전율"]

-- ── digit / string utilities (for comma formatting and date parsing) ─────

/-- The ASCII digit character for a digit value. -/
def digitChar (d : ℕ) : Char := Char.ofNat (48 + d)

/-- The digit value of an ASCII digit character. -/
def charDigit (c : Char) : ℕ := c.toNat - 48

/-- Whether a character is an ASCII decimal digit. -/
def isDigitChar (c : Char) : Bool := decide (48 ≤ c.toNat) && decide (c.toNat ≤ 57)

/-- The natural number denoted by a big-endian list of digit characters. -/
def natOfDigitsBE (l : List Char) : ℕ := Nat.ofDigits 10 ((l.map charDigit).reverse)

/-- The big-endian decimal digit characters of a natural number (`"0"` for
zero), as produced by Python's integer formatting. -/
def digitsBE (n : ℕ) : List Char :=
  if n = 0 then ['0'] else ((Nat.digits 10 n).map digitChar).reverse

/-- Thousands grouping on a little-endian digit list: a comma is inserted
after every third digit, counting from the units digit (`k` is the number of
digits already emitted in the current group). -/
def group3LE : List Char → ℕ → List Char
  | [], _ => []
  | c :: rest, k =>
      if k = 3 then ',' :: c :: group3LE rest 1
      else c :: group3LE rest (k + 1)

/-- Python's `f"{n:,}"` on an integer: sign, then decimal digits with
thousands separators. -/
def commaFormat (n : ℤ) : String :=
  (if n < 0 then "-" else "") ++ ⟨(group3LE (digitsBE n.natAbs).reverse 0).reverse⟩

/-- `str.replace(",", "")` as used by `to_numeric_investor`. -/
def stripCommas (s : String) : String := ⟨s.data.filter (fun c => c ≠ ',')⟩

/-- `pd.to_numeric(..., errors="coerce")` restricted to the integer strings
the writer emits: an optional minus sign followed by decimal digits; anything
else coerces to NaN (modelled as `none`). -/
def parseIntStr (s : String) : Option ℤ :=
  match s.data with
  | [] => none
  | c :: cs =>
      if c = '-' then
        if cs ≠ [] ∧ cs.all isDigitChar then some (-(natOfDigitsBE cs : ℤ)) else none
      else if (c :: cs).all isDigitChar then some ((natOfDigitsBE (c :: cs) : ℤ)) else none

/-- `str.zfill(6)` (Python): pad with leading zeros to width 6, keeping a
leading sign in place. -/
def zfill6 (s : String) : String :=
  if 6 ≤ s.length then s
  else match s.data with
    | '-' :: rest => ⟨'-' :: (List.replicate (6 - s.length) '0' ++ rest)⟩
    | '+' :: rest => ⟨'+' :: (List.replicate (6 - s.length) '0' ++ rest)⟩
    | l => ⟨List.replicate (6 - s.length) '0' ++ l⟩

-- ── dates (collector._is_likely_trading_day) ─────────────────────────────

/-- Whether a year is a Gregorian leap year. -/
def isLeap (y : ℕ) : Bool := (y % 4 = 0 && y % 100 ≠ 0) || y % 400 = 0

/-- Number of days in a month. -/
def daysInMonth (y mo : ℕ) : ℕ :=
  if mo = 2 then (if isLeap y then 29 else 28)
  else if mo = 4 ∨ mo = 6 ∨ mo = 9 ∨ mo = 11 then 30 else 31

/-- `datetime.strptime(date_str, "%Y%m%d")`: eight digits split as
year/month/day, validated to a real calendar date (year at least 1, as in
`datetime`); `none` models the raised `ValueError`. -/
def parseDate (s : String) : Option (ℕ × ℕ × ℕ) :=
  let cs := s.data
  if cs.length = 8 ∧ cs.all isDigitChar then
    let y := natOfDigitsBE (cs.take 4)
    let mo := natOfDigitsBE ((cs.drop 4).take 2)
    let d := natOfDigitsBE (cs.drop 6)
    if 1 ≤ y ∧ 1 ≤ mo ∧ mo ≤ 12 ∧ 1 ≤ d ∧ d ≤ daysInMonth y mo then
      some (y, mo, d)
    else none
  else none

/-- Month offsets of Sakamoto's day-of-week algorithm. -/
def sakamotoT : List ℕ := [0, 3, 2, 5, 0, 3, 5, 1, 4, 6, 2, 4]

/-- `datetime.weekday()`: Monday = 0 … Sunday = 6, via Sakamoto's algorithm
(which yields Sunday = 0, shifted by six). -/
def pyWeekday (y mo d : ℕ) : ℕ :=
  let y' := if mo < 3 then y - 1 else y
  ((y' + y' / 4 - y' / 100 + y' / 400 + sakamotoT.getD (mo - 1) 0 + d) % 7 + 6) % 7

-- ── collector data model ─────────────────────────────────────────────────

/-- One row of `get_market_cap_by_ticker`: close price, market cap, volume,
trading value and listed share count (columns 0–4). -/
structure CapData where
  close : PVal
  mcap : PVal
  volume : PVal
  tval : PVal
  shares : PVal
deriving DecidableEq

/-- One row of `get_market_net_purchases_of_equities`: the first column
(ticker name) and the last column (net purchase value). -/
structure NetRow where
  name : String
  net : PVal
deriving DecidableEq

/-- The upstream world a collection run observes: the post-retry result of
every fetch (`_retry` already converts failures into empty tables, so an
empty list covers both "no data" and "all retries failed").
`probe` is the quick trading-day probe: `none` models a probe timeout or
exception (treated as "assume trading day"), `some b` a returned table with
`b = ¬ result.empty`. -/
structure Env where
  probe : Option Bool
  cap : String → List (String × CapData)
  ohlcv : String → List (String × PVal)
  net : String → String → List (String × NetRow)
  tickerName : String → String

/-- The market-data calls a run can issue. -/
inductive ApiCall where
  | probe (date : String)
  | capFetch (market : String)
  | ohlcvFetch (market : String)
  | netFetch (market investor : String)
  | nameFetch (ticker : String)
deriving DecidableEq

/-- Unique-key association lookup (a pandas index `.get` / `.reindex` on one
key). -/
def alookup {α : Type} (l : List (String × α)) (k : String) : Option α :=
  (l.find? (fun p => p.1 = k)).map (fun p => p.2)

/-- One row of the assembled per-ticker table. -/
structure Row where
  ticker : String
  name : String
  market : String
  close : PVal
  change : PVal
  mcap : PVal
  tval : PVal
  volume : PVal
  turnover : PVal
  invs : List (String × PVal)
deriving DecidableEq

/-- The turnover-ratio formula of `collect`
(`(volume / listed_shares * 100).round(4)` then `.fillna(0)`). -/
def turnoverOf (volume shares : PVal) : PVal :=
  pfillna (pround4 (pmul (pdiv volume shares) (PVal.num 100))) (PVal.num 0)

/-- The ticker → name map harvested from the first non-empty investor
net-purchase response. -/
def nameMapOf (nets : String → List (String × NetRow)) : List (String × String) :=
  match INVESTORS.find? (fun inv => !(nets inv).isEmpty) with
  | some inv => (nets inv).map (fun p => (p.1, p.2.name))
  | none => []

/-- The first fifty tickers whose harvested name is empty (the bounded
individual name-lookup list). -/
def missingOf (cap : List (String × CapData)) (nm : List (String × String)) : List String :=
  ((cap.map Prod.fst).filter (fun t => ((alookup nm t).getD "") = "")).take 50

/-- The final display name of a ticker: the harvested name, overridden by a
successful individual `get_market_ticker_name` lookup when the ticker is in
the bounded missing list (an empty lookup result or a raised exception leaves
the name empty). -/
def finalNameOf (tn : String → String) (cap : List (String × CapData))
    (nm : List (String × String)) (t : String) : String :=
  let base := (alookup nm t).getD ""
  if t ∈ missingOf cap nm ∧ tn t ≠ "" then tn t else base

/-- The raw investor cell before the cast:
`net_col.reindex(base_df.index).fillna(0)`. -/
def invCellRawOf (nets : String → List (String × NetRow)) (inv t : String) : PVal :=
  pfillna (((alookup (nets inv) t).map NetRow.net).getD PVal.nan) (PVal.num 0)

/-- One investor cell: `0` for an empty (post-retry) response, otherwise the
reindexed/filled value cast by `.astype("int64", errors="ignore")` — the cast
truncates every cell when the whole column is finite and leaves the column
unchanged otherwise. -/
def invCellOf (nets : String → List (String × NetRow)) (tickers : List String)
    (inv t : String) : PVal :=
  if (nets inv).isEmpty then PVal.num 0
  else if (tickers.map (invCellRawOf nets inv)).all pIsFinite then
    ptrunc (invCellRawOf nets inv t)
  else invCellRawOf nets inv t

/-- Assembly of one ticker row of `base_df` from one cap-table row. -/
def buildRowOf (cap : List (String × CapData)) (oh : List (String × PVal))
    (nets : String → List (String × NetRow)) (tn : String → String)
    (m : String) (p : String × CapData) : Row :=
  { ticker := p.1
    name := finalNameOf tn cap (nameMapOf nets) p.1
    market := m
    close := p.2.close
    change := pfillna ((alookup oh p.1).getD PVal.nan) (PVal.num 0)
    mcap := p.2.mcap
    tval := p.2.tval
    volume := p.2.volume
    turnover := turnoverOf p.2.volume p.2.shares
    invs := INVESTORS.map (fun inv => (inv, invCellOf nets (cap.map Prod.fst) inv p.1)) }

/-- The per-market `base_df` (one row per cap-table row, in cap order). -/
def marketRowsOf (cap : List (String × CapData)) (oh : List (String × PVal))
    (nets : String → List (String × NetRow)) (tn : String → String)
    (m : String) : List Row :=
  cap.map (buildRowOf cap oh nets tn m)

/-- `marketRowsOf` applied to the environment's responses for one market. -/
def marketRows (e : Env) (m : String) : List Row :=
  marketRowsOf (e.cap m) (e.ohlcv m) (e.net m) e.tickerName m

/-- The calls issued while processing one market: the cap and OHLCV fetches
always, and — only when neither came back empty — one net-purchase fetch per
investor category followed by the bounded individual name lookups. -/
def marketCalls (e : Env) (m : String) : List ApiCall :=
  [ApiCall.capFetch m, ApiCall.ohlcvFetch m] ++
    (if (e.cap m).isEmpty || (e.ohlcv m).isEmpty then []
     else INVESTORS.map (ApiCall.netFetch m) ++
       (missingOf (e.cap m) (nameMapOf (e.net m))).map ApiCall.nameFetch)

/-- `_is_likely_trading_day` together with the calls it issues: a parse
failure is caught and treated as a trading day (no probe); a weekend
short-circuits to `false` before the probe; otherwise the probe decides,
with timeout/exception defaulting to `true`. -/
def tradingCheck (e : Env) (date : String) : Bool × List ApiCall :=
  match parseDate date with
  | none => (true, [])
  | some (y, mo, d) =>
      if 5 ≤ pyWeekday y mo d then (false, [])
      else match e.probe with
        | none => (true, [ApiCall.probe date])
        | some nonEmpty => (nonEmpty, [ApiCall.probe date])

/-- The column order of `base_df` after `reset_index` (index first, then the
columns in assignment order). -/
def preCols : List String :=
  "티커" :: (["시장", "종가", "시가총액", "거래량", "거래대금", "등락률", "회전율"] ++
    INVESTORS ++ ["종목명"])

/-- The final column order: canonical columns present, then the remaining
columns. -/
def finalCols : List String :=
  let ordered := COLUMN_ORDER.filter (fun c => c ∈ preCols)
  ordered ++ preCols.filter (fun c => c ∉ ordered)

/-- A collected table: its column order and its rows. -/
structure CollectResult where
  cols : List String
  rows : List Row
deriving DecidableEq

/-- The list `all_data` of per-market tables: one table per market whose cap
and OHLCV fetches both returned data. -/
def collectFrames (e : Env) : List (List Row) :=
  MARKETS.filterMap (fun m =>
    if (e.cap m).isEmpty || (e.ohlcv m).isEmpty then none
    else some (marketRows e m))

/-- The full list of calls a run issues once the trading-day check passed. -/
def collectCalls (e : Env) (date : String) : List ApiCall :=
  (tradingCheck e date).2 ++ (MARKETS.map (marketCalls e)).flatten

/-- `collector.collect`, paired with the list of market-data calls issued:
non-trading dates return the empty table at once; each market is skipped
when its cap or OHLCV fetch came back empty; the per-market tables are
concatenated, zero-volume rows dropped, and the columns reordered. -/
def collect (e : Env) (date : String) : CollectResult × List ApiCall :=
  if !(tradingCheck e date).1 then (⟨[], []⟩, (tradingCheck e date).2)
  else if (collectFrames e).isEmpty then (⟨[], []⟩, collectCalls e date)
  else
    (⟨finalCols, (collectFrames e).flatten.filter (fun r => pgt0 r.volume)⟩,
      collectCalls e date)

-- ── retry wrapper (collector._retry) ─────────────────────────────────────

/-- The outcome of one attempt of the wrapped function: a returned value, a
`FuturesTimeout`, or any other exception. -/
inductive Attempt (α : Type) where
  | ok (a : α)
  | timeout
  | exc
deriving DecidableEq

/-- Whether an attempt outcome is a failure. -/
def attemptFails {α : Type} : Attempt α → Bool
  | Attempt.ok _ => false
  | _ => true

/-- The loop body of `_retry`, with the remaining iteration count of
`range(max_retries)` made explicit (`remaining + attempt = maxR` at every
call): a success returns immediately; a failure on the last attempt returns
the empty table without sleeping; otherwise the wrapper sleeps — the constant
base delay after a timeout, `base * 2 ^ attempt` after an exception — and
retries.  The returned list records the sleeps performed, in order. -/
def retryGo {α : Type} (f : ℕ → Attempt α) (e : α) (base : ℚ) (maxR : ℕ) :
    ℕ → ℕ → α × List ℚ
  | 0, _ => (e, [])
  | remaining + 1, attempt =>
      match f attempt with
      | Attempt.ok a => (a, [])
      | Attempt.timeout =>
          if attempt = maxR - 1 then (e, [])
          else
            let p := retryGo f e base maxR remaining (attempt + 1)
            (p.1, base :: p.2)
      | Attempt.exc =>
          if attempt = maxR - 1 then (e, [])
          else
            let p := retryGo f e base maxR remaining (attempt + 1)
            (p.1, base * 2 ^ attempt :: p.2)

/-- `collector._retry`: `e` stands for the empty `pd.DataFrame()` fallback,
`f n` for the outcome of attempt `n`. No outcome raises to the caller. -/
def retryCall {α : Type} (f : ℕ → Attempt α) (e : α) (base : ℚ) (maxR : ℕ) :
    α × List ℚ :=
  retryGo f e base maxR maxR 0

/-- The sleep `_retry` performs after a failed attempt `i` that is not the
last: the constant base delay after a timeout, `base * 2 ^ i` after an
exception. -/
def delayOf {α : Type} (f : ℕ → Attempt α) (base : ℚ) (i : ℕ) : ℚ :=
  match f i with
  | Attempt.timeout => base
  | _ => base * 2 ^ i

/-- The sleeps `_retry` performs over attempts `start, start+1, …,
start+k-1` when every one of those attempts fails. -/
def retryDelays {α : Type} (f : ℕ → Attempt α) (base : ℚ) (start k : ℕ) : List ℚ :=
  (List.range' start k).map (delayOf f base)

-- ── spreadsheet writer (excel_writer.py) ─────────────────────────────────

/-- `_format_억` on one cell: NaN (and non-numeric cells) format as the empty
string, a finite value as the comma-grouped hundred-million-unit rounding
`f"{round(float(value) / 1e8):,}"`; `none` models the `OverflowError` that
`round` raises on an infinite float. -/
def format_eok : PVal → Option String
  | PVal.nan => some ""
  | PVal.num q => some (commaFormat (roundHalfEven (q / 100000000)))
  | _ => none

/-- A written sheet row, as far as the round-trip claim observes it: the
zero-padded ticker text and the formatted investor cells. -/
structure SheetRow where
  ticker : String
  cells : List (String × String)
deriving DecidableEq

/-- Option-valued map: `none` as soon as one element maps to `none`
(an exception aborting the write). -/
def optMap {α β : Type} (f : α → Option β) : List α → Option (List β)
  | [] => some []
  | a :: as =>
      match f a, optMap f as with
      | some b, some bs => some (b :: bs)
      | _, _ => none

/-- `_write_sheet` on the full table, restricted to what the round-trip
observes: each row's ticker is zero-padded to six characters and each
investor cell is formatted with `_format_억`. -/
def writeRowFull (r : Row) : Option SheetRow :=
  (optMap (fun p => (format_eok p.2).map (fun s => (p.1, s))) r.invs).map
    (fun cs => { ticker := zfill6 r.ticker, cells := cs })

/-- The "전체" sheet written by `save_to_excel`: every input row, in order. -/
def writeFull (rows : List Row) : Option (List SheetRow) := optMap writeRowFull rows

/-- A row of a table held by the dashboard after loading (whatever its
provenance); used to model the dashboard's data environment. -/
structure LoadedRow where
  ticker : String
  cells : List (String × ℚ)
deriving DecidableEq

/-- A cell of a DataFrame column returned by `pd.read_excel`: pandas type
inference either converted the whole column to a numeric dtype (`num`) or
left the cells as strings (`str`). -/
inductive XCell where
  | num (q : ℚ)
  | str (s : String)
deriving DecidableEq

/-- Whether a reloaded cell is numeric. -/
def XCell.isNum : XCell → Bool
  | XCell.num _ => true
  | _ => false

/-- `pd.read_excel` column type inference on a column of written cell
texts: when every cell parses as a plain number (pandas does not strip
thousands separators, so a comma makes the cell non-numeric), the whole
column is converted to a numeric dtype holding the parsed values — this is
what turns zero-padded ticker texts and comma-free money columns into
numbers on reload; otherwise the cells stay strings.  `parseIntStr` covers
exactly the integer strings the writer can emit. -/
def readColumn (col : List String) : List XCell :=
  if col.all (fun s => (parseIntStr s).isSome) then
    col.map (fun s => XCell.num (((parseIntStr s).getD 0 : ℤ) : ℚ))
  else col.map XCell.str

/-- The ticker column of the written "전체" sheet. -/
def sheetTickerCol (sheet : List SheetRow) : List String :=
  sheet.map SheetRow.ticker

/-- One investor column of the written "전체" sheet. -/
def sheetInvCol (sheet : List SheetRow) (inv : String) : List String :=
  sheet.map (fun sr => (alookup sr.cells inv).getD "")

/-- The ticker column as the dashboard receives it from `pd.read_excel`. -/
def loadTickers (sheet : List SheetRow) : List XCell :=
  readColumn (sheetTickerCol sheet)

/-- One investor column as the dashboard receives it from `pd.read_excel`. -/
def loadInvCol (sheet : List SheetRow) (inv : String) : List XCell :=
  readColumn (sheetInvCol sheet inv)

/-- `dashboard.to_numeric_investor` on a reloaded column: when the column
has a numeric dtype (`s.dtype in ("float64", "int64")`) it is returned
unchanged — and therefore unscaled; otherwise each cell is stringified,
comma-stripped, coerced (NaN for a non-numeric string), zero-filled and
scaled from hundred-million units back to won (a numeric cell inside an
object column round-trips through `astype(str)` unchanged, hence the
`q * 100000000` arm). -/
def to_numeric_investor (col : List XCell) : List ℚ :=
  if col.all XCell.isNum then
    col.map (fun c =>
      match c with
      | XCell.num q => q
      | XCell.str _ => 0)
  else
    col.map (fun c =>
      match c with
      | XCell.num q => q * 100000000
      | XCell.str s =>
          (((parseIntStr (stripCommas s)).map (fun n => (n : ℚ))).getD 0) * 100000000)

/-- The text `_format_억` produces for one finite or NaN cell (the value
`writeRowFull` wraps in `some`). -/
def formattedCell (v : PVal) : String :=
  match v with
  | PVal.num x => commaFormat (roundHalfEven (x / 100000000))
  | _ => ""

/-- The columns of the full sheet: `_write_sheet` keeps exactly the canonical
columns present in the table, in canonical order. -/
def fullSheetCols (cols : List String) : List String :=
  COLUMN_ORDER.filter (fun c => c ∈ cols)

/-- The columns of one ranking sheet: the ranking column order followed by
the ranked investor's column, restricted to the columns present. -/
def rankingSheetCols (cols : List String) (inv : String) : List String :=
  (RANKING_COLUMN_ORDER ++ [inv]).filter (fun c => c ∈ cols)

/-- The external filesystem state `save_to_excel` touches. -/
structure FsState where
  dirExists : Bool
  files : List String
deriving DecidableEq

/-- The spreadsheet path `수급_<date>.xlsx` inside the data directory. -/
def excelPath (dateStr : String) : String := "data/수급_" ++ dateStr ++ ".xlsx"

/-- The observable outcome of `save_to_excel`: the filesystem afterwards, the
files written, and the diagnostic message printed (if any). -/
structure SaveOutcome where
  state : FsState
  written : List String
  message : Option String
deriving DecidableEq

/-- `excel_writer.save_to_excel`: `os.makedirs(..., exist_ok=True)` runs
first, unconditionally; an empty table then prints a diagnostic and returns
without writing; otherwise the spreadsheet file is written. -/
def save_to_excel (res : CollectResult) (dateStr : String) (s : FsState) :
    SaveOutcome :=
  let s1 : FsState := { s with dirExists := true }
  if res.rows.isEmpty then
    { state := s1, written := [], message := some "저장할 데이터가 없습니다." }
  else
    { state := { s1 with files := excelPath dateStr :: s1.files }
      written := [excelPath dateStr]
      message := none }

-- ── dashboard loader (dashboard.py) ──────────────────────────────────────

/-- The world `load_data` observes: whether the spreadsheet file for the date
exists, what reading it yields (`none` models a raised exception, `some`
the parsed rows), and what live collection would return. -/
structure DashEnv where
  fileExists : Bool
  readResult : Option (List LoadedRow)
  liveResult : List LoadedRow

/-- `dashboard._load_from_excel`: empty when the file is missing or reading
raises, otherwise the parsed table. -/
def load_from_excel (e : DashEnv) : List LoadedRow :=
  if !e.fileExists then []
  else match e.readResult with
    | none => []
    | some rows => rows

/-- `dashboard.load_data`, paired with whether live collection was
triggered: the excel load is returned when non-empty, otherwise the run
falls through to `_collect_live`. -/
def load_data (e : DashEnv) : List LoadedRow × Bool :=
  let df := load_from_excel e
  if !df.isEmpty then (df, false)
  else (e.liveResult, true)

-- ── concrete sample environments (used by witnesses) ────────────────────

/-- A sample environment in which the probe reports a trading day, KOSPI has
one listed ticker with zero listed shares and positive volume, and every
net-purchase fetch comes back empty. -/
def envW : Env :=
  { probe := some true
    cap := fun m =>
      if m = "KOSPI" then
        [("000001",
          { close := PVal.num 1000, mcap := PVal.num 50000, volume := PVal.num 100
            tval := PVal.num 5000, shares := PVal.num 0 })]
      else []
    ohlcv := fun m => if m = "KOSPI" then [("000001", PVal.num 1)] else []
    net := fun _ _ => []
    tickerName := fun _ => "" }

/-- A dashboard world in which the spreadsheet file exists but reading it
raises an exception. -/
def dashCorrupt : DashEnv :=
  { fileExists := true
    readResult := none
    liveResult := [{ ticker := "000001", cells := [] }] }

/-- A dashboard world in which the file exists and parses to one row. -/
def dashCached : DashEnv :=
  { fileExists := true
    readResult := some [{ ticker := "000002", cells := [] }]
    liveResult := [] }

/-- A default row (used only to take the head of a concrete row list). -/
def rowDefault : Row :=
  { ticker := "", name := "", market := "", close := PVal.nan, change := PVal.nan
    mcap := PVal.nan, tval := PVal.nan, volume := PVal.nan, turnover := PVal.nan
    invs := [] }

/-- An environment whose single ticker (in both markets) has an undefined
listed-share count. -/
def envNan : Env :=
  { probe := some true
    cap := fun _ =>
      [("000001",
        { close := PVal.num 10, mcap := PVal.num 1, volume := PVal.num 5
          tval := PVal.num 1, shares := PVal.nan })]
    ohlcv := fun _ => [("000001", PVal.num 1)]
    net := fun _ _ => []
    tickerName := fun _ => "" }

/-- An environment in which KOSPI's cap fetch is empty and KOSDAQ has one
active ticker. -/
def envKospiDown : Env :=
  { probe := some true
    cap := fun m =>
      if m = "KOSDAQ" then
        [("100001",
          { close := PVal.num 500, mcap := PVal.num 9000, volume := PVal.num 40
            tval := PVal.num 800, shares := PVal.num 2000 })]
      else []
    ohlcv := fun m => if m = "KOSDAQ" then [("100001", PVal.num 2)] else []
    net := fun _ _ => []
    tickerName := fun _ => "" }

/-- `envKospiDown` with KOSPI's fetches replaced by successful responses. -/
def envKospiUp : Env :=
  { envKospiDown with
    cap := fun m =>
      if m = "KOSPI" then
        [("000002",
          { close := PVal.num 100, mcap := PVal.num 700, volume := PVal.num 3
            tval := PVal.num 30, shares := PVal.num 70 })]
      else envKospiDown.cap m
    ohlcv := fun m =>
      if m = "KOSPI" then [("000002", PVal.num 1)] else envKospiDown.ohlcv m }

/-- A sample collected row: a six-character ticker and one finite investor
cell of 150,000,000 won (1.5 hundred-million units, which rounds to 2). -/
def rowSample : Row :=
  { ticker := "005930", name := "삼성전자", market := "KOSPI"
    close := PVal.num 70000, change := PVal.num 1, mcap := PVal.num 1
    tval := PVal.num 1, volume := PVal.num 10, turnover := PVal.num 0
    invs := [("개인", PVal.num 150000000)] }

-- ── structural lemmas about the collector ────────────────────────────────

theorem buildRowOf_market (cap : List (String × CapData)) (oh : List (String × PVal))
    (nets : String → List (String × NetRow)) (tn : String → String)
    (m : String) (p : String × CapData) :
    (buildRowOf cap oh nets tn m p).market = m := rfl

theorem mem_marketRows_market {e : Env} {m : String} {r : Row}
    (h : r ∈ marketRows e m) : r.market = m := by
  unfold marketRows marketRowsOf at h
  obtain ⟨p, _, hp⟩ := List.mem_map.mp h
  rw [← hp]
  rfl

theorem mem_collectFrames {e : Env} {fr : List Row} (h : fr ∈ collectFrames e) :
    ∃ m ∈ MARKETS, ((e.cap m).isEmpty || (e.ohlcv m).isEmpty) = false ∧
      fr = marketRows e m := by
  unfold collectFrames at h
  obtain ⟨m, hm, hsome⟩ := List.mem_filterMap.mp h
  by_cases hc : ((e.cap m).isEmpty || (e.ohlcv m).isEmpty) = true
  · rw [if_pos hc] at hsome
    cases hsome
  · rw [if_neg hc] at hsome
    exact ⟨m, hm, by simpa using hc, (Option.some_inj.mp hsome).symm⟩

theorem collect_rows_eq {e : Env} {date : String}
    (ht : (tradingCheck e date).1 = true) :
    (collect e date).1.rows =
      (collectFrames e).flatten.filter (fun r => pgt0 r.volume) := by
  unfold collect
  rw [ht]
  simp only [Bool.not_true, Bool.false_eq_true, if_false]
  split
  · next hempty =>
    rw [List.isEmpty_iff.mp hempty]
    rfl
  · rfl

theorem collect_rows_empty_of_not_trading {e : Env} {date : String}
    (ht : (tradingCheck e date).1 = false) :
    (collect e date).1.rows = [] := by
  unfold collect
  rw [ht]
  rfl

theorem mem_collect_rows {e : Env} {date : String} {r : Row}
    (hr : r ∈ (collect e date).1.rows) :
    ∃ m ∈ MARKETS, ((e.cap m).isEmpty || (e.ohlcv m).isEmpty) = false ∧
      r ∈ marketRows e m ∧ pgt0 r.volume = true := by
  by_cases ht : (tradingCheck e date).1
  · rw [collect_rows_eq ht] at hr
    have hr' := List.mem_filter.mp hr
    obtain ⟨fr, hfr, hrfr⟩ := List.mem_flatten.mp hr'.1
    obtain ⟨m, hm, hok, hfreq⟩ := mem_collectFrames hfr
    exact ⟨m, hm, hok, hfreq ▸ hrfr, by simpa using hr'.2⟩
  · rw [collect_rows_empty_of_not_trading (by simpa using ht)] at hr
    cases hr

-- ── C3: every returned row has strictly positive trading volume ──────────

/-- C3: for every environment and date, every row of the table returned by
`collect` has trading volume strictly greater than zero — zero-volume
(and NaN-volume) rows are removed before the result is returned. -/
theorem c3_volume_positive (e : Env) (date : String) (r : Row)
    (hr : r ∈ (collect e date).1.rows) : pgt0 r.volume = true := by
  obtain ⟨_, _, _, _, hpos⟩ := mem_collect_rows hr
  exact hpos

-- ── C6: weekends short-circuit before any market-data call ───────────────

theorem tradingCheck_weekend {e : Env} {date : String} {y mo d : ℕ}
    (hp : parseDate date = some (y, mo, d)) (hw : 5 ≤ pyWeekday y mo d) :
    tradingCheck e date = (false, []) := by
  unfold tradingCheck
  rw [hp]
  simp [hw]

/-- C6: for every date string that parses as a Saturday or Sunday
(`weekday ≥ 5`), `collect` returns the empty table and issues no
market-data call at all — neither the quick probe nor any per-market
fetch. -/
theorem c6_weekend_no_calls (e : Env) (date : String) (y mo d : ℕ)
    (hp : parseDate date = some (y, mo, d)) (hw : 5 ≤ pyWeekday y mo d) :
    (collect e date).1 = ⟨[], []⟩ ∧ (collect e date).2 = [] := by
  unfold collect
  rw [tradingCheck_weekend hp hw]
  exact ⟨rfl, rfl⟩


/-- Witness for C6: 2025-10-11 is a Saturday, and collection on it returns
the empty table with an empty call log. -/
theorem c6_weekend_no_calls_witness :
    (collect envW "20251011").1 = ⟨[], []⟩ ∧ (collect envW "20251011").2 = [] :=
  c6_weekend_no_calls envW "20251011" 2025 10 11 (by decide) (by decide)

-- ── C8: dashboard loader fallback ────────────────────────────────────────


/-- Counterexample to C8 as stated: the spreadsheet file for the date
exists, and live collection is nevertheless triggered (reading the file
raised, `_load_from_excel` degraded to an empty table, and `load_data` fell
through to `_collect_live`). -/
theorem c8_counterexample :
    dashCorrupt.fileExists = true ∧ (load_data dashCorrupt).2 = true :=
  ⟨rfl, rfl⟩

/-- C8 (amended): `load_data` first attempts the saved spreadsheet and
returns it without live collection exactly when that load yields a
non-empty table; live collection is triggered whenever the excel load is
empty — because the file is missing, because reading it raised, or because
it parsed to an empty table. -/
theorem c8_amended (e : DashEnv) :
    (load_from_excel e ≠ [] → load_data e = (load_from_excel e, false)) ∧
    (load_from_excel e = [] → load_data e = (e.liveResult, true)) := by
  constructor
  · intro h
    unfold load_data
    rw [if_pos (by simpa [List.isEmpty_iff] using h)]
  · intro h
    unfold load_data
    rw [if_neg (by simp [List.isEmpty_iff, h])]


/-- Witness for C8 (amended): with a readable non-empty cached file, the
cached table is returned and live collection is not triggered. -/
theorem c8_amended_witness :
    load_data dashCached = ([{ ticker := "000002", cells := [] }], false) := by
  have h := (c8_amended dashCached).1 (by decide)
  simpa [load_from_excel, dashCorrupt, dashCached] using h

-- ── C9: saving an empty table ────────────────────────────────────────────

/-- Counterexample to C9 as stated: saving an empty table from a state in
which the data directory does not yet exist writes no file but does change
external state — `os.makedirs(..., exist_ok=True)` runs before the empty
check and creates the directory. -/
theorem c9_counterexample :
    (save_to_excel ⟨[], []⟩ "20250101" ⟨false, []⟩).written = [] ∧
      (save_to_excel ⟨[], []⟩ "20250101" ⟨false, []⟩).state ≠ ⟨false, []⟩ := by
  constructor
  · rfl
  · decide

/-- C9 (amended): on an empty table, `save_to_excel` writes no spreadsheet
file, prints a diagnostic message and returns; its only effect on external
state is ensuring the data directory exists (the file list is unchanged). -/
theorem c9_amended (res : CollectResult) (dateStr : String) (s : FsState)
    (h : res.rows.isEmpty = true) :
    save_to_excel res dateStr s =
      ⟨⟨true, s.files⟩, [], some "저장할 데이터가 없습니다."⟩ := by
  unfold save_to_excel
  rw [if_pos h]

/-- Witness for C9 (amended): a concrete empty table and filesystem state. -/
theorem c9_amended_witness :
    save_to_excel ⟨[], []⟩ "20250101" ⟨false, ["data/수급_20241230.xlsx"]⟩ =
      ⟨⟨true, ["data/수급_20241230.xlsx"]⟩, [], some "저장할 데이터가 없습니다."⟩ :=
  c9_amended ⟨[], []⟩ "20250101" ⟨false, ["data/수급_20241230.xlsx"]⟩ rfl

-- ── C1: the turnover-ratio column ────────────────────────────────────────

theorem turnoverOf_shares_nan (v : PVal) : turnoverOf v PVal.nan = PVal.num 0 := by
  cases v <;> rfl

theorem turnoverOf_volume_nan (s : PVal) : turnoverOf PVal.nan s = PVal.num 0 := by
  cases s <;> rfl

theorem turnoverOf_zero_zero : turnoverOf (PVal.num 0) (PVal.num 0) = PVal.num 0 := by
  decide

theorem turnoverOf_pos_zero (q : ℚ) (hq : 0 < q) :
    turnoverOf (PVal.num q) (PVal.num 0) = PVal.inf := by
  have hne : ¬ q = 0 := ne_of_gt hq
  simp only [turnoverOf, pdiv, if_pos rfl, hne, if_false, hq, if_true]
  norm_num [pmul, pround4, pfillna]

/-- Counterexample to C1 as stated: in `envW` the single KOSPI ticker has
listed-share count 0 and trading volume 100, and the assembled turnover cell
is `inf`, not 0 — pandas evaluates `100 / 0 * 100` to infinity, which
`.fillna(0)` does not replace. -/
theorem c1_counterexample :
    ((collect envW "20251010").1.rows.map Row.turnover) = [PVal.inf] ∧
      PVal.inf ≠ PVal.num 0 := by
  constructor
  · decide
  · decide

/-- C1 (amended): every row assembled by the collector carries
`turnover = fillna(round(volume / listed_shares * 100, 4), 0)` computed from
its cap-table entry; the turnover is 0 when the listed-share count is
undefined (NaN), when the trading volume is undefined, or when volume and
listed shares are both zero — but when listed shares are zero and the volume
is a positive number the turnover is `inf`, not 0. -/
theorem c1_turnover_amended (e : Env) (date : String) (r : Row)
    (hr : r ∈ (collect e date).1.rows) :
    ∃ m ∈ MARKETS, ∃ p ∈ e.cap m, p.1 = r.ticker ∧
      r.turnover = turnoverOf p.2.volume p.2.shares ∧
      (p.2.shares = PVal.nan → r.turnover = PVal.num 0) ∧
      (p.2.volume = PVal.nan → r.turnover = PVal.num 0) ∧
      (p.2.shares = PVal.num 0 → p.2.volume = PVal.num 0 → r.turnover = PVal.num 0) ∧
      (∀ q : ℚ, p.2.shares = PVal.num 0 → p.2.volume = PVal.num q → 0 < q →
        r.turnover = PVal.inf) := by
  obtain ⟨m, hm, hok, hmem, _⟩ := mem_collect_rows hr
  unfold marketRows marketRowsOf at hmem
  obtain ⟨p, hp, hbuild⟩ := List.mem_map.mp hmem
  have ht : r.turnover = turnoverOf p.2.volume p.2.shares := by
    rw [← hbuild]
    rfl
  refine ⟨m, hm, p, hp, ?_, ht, ?_, ?_, ?_, ?_⟩
  · rw [← hbuild]
    rfl
  · intro h
    rw [ht, h, turnoverOf_shares_nan]
  · intro h
    rw [ht, h, turnoverOf_volume_nan]
  · intro hs hv
    rw [ht, hs, hv, turnoverOf_zero_zero]
  · intro q hs hv hq
    rw [ht, hs, hv, turnoverOf_pos_zero q hq]



/-- Witness for C1 (amended): with an undefined listed-share count the
assembled turnover cell is 0. -/
theorem c1_turnover_amended_witness :
    Row.turnover ((collect envNan "20251010").1.rows.headD rowDefault) =
      PVal.num 0 := by
  obtain ⟨m, hm, p, hp, _, _, hnan, _⟩ :=
    c1_turnover_amended envNan "20251010"
      ((collect envNan "20251010").1.rows.headD rowDefault) (by decide)
  have hps : p.2.shares = PVal.nan := by
    have : p ∈ envNan.cap m := hp
    simp only [envNan] at this
    rw [List.mem_singleton.mp this]
  exact hnan hps

-- ── C3 witness ───────────────────────────────────────────────────────────

/-- Witness for C3: the surviving row of a concrete collection run has
positive volume. -/
theorem c3_volume_positive_witness :
    pgt0 (Row.volume ((collect envW "20251010").1.rows.headD rowDefault)) = true :=
  c3_volume_positive envW "20251010" _ (by decide)

-- ── C5: canonical column order ───────────────────────────────────────────

theorem finalCols_eq : finalCols = COLUMN_ORDER := by decide

theorem collect_cols_cases (e : Env) (date : String) :
    (collect e date).1.cols = [] ∨ (collect e date).1.cols = finalCols := by
  unfold collect
  split
  · left; rfl
  · split
    · left; rfl
    · right; rfl

theorem filter_canonical (base cols : List String) :
    base.filter (fun c => c ∈ cols) =
      base.filter (fun c => c ∈ base.filter (fun x => x ∈ cols)) ++
        (base.filter (fun c => c ∈ cols)).filter (fun c => c ∉ base) := by
  have h2 : (base.filter (fun c => c ∈ cols)).filter (fun c => c ∉ base) = [] := by
    rw [List.filter_eq_nil_iff]
    intro a ha
    simp only [decide_not, Bool.not_eq_true', decide_eq_false_iff_not, not_not]
    exact List.mem_of_mem_filter ha
  have h1 : base.filter (fun c => (c ∈ base.filter (fun x => x ∈ cols) : Bool)) =
      base.filter (fun c => c ∈ cols) := by
    apply List.filter_congr
    intro x hx
    simp [List.mem_filter, hx]
  rw [h1, h2, List.append_nil]

/-- C5: the column order of every collected table equals the canonical order
restricted to the columns present followed by the extra columns, and the
same discipline holds for the full sheet (canonical list `COLUMN_ORDER`) and
for every ranking sheet (canonical list: the ranking column order followed
by the ranked investor's column). -/
theorem c5_column_order (e : Env) (date : String) :
    ((collect e date).1.cols =
      COLUMN_ORDER.filter (fun c => c ∈ (collect e date).1.cols) ++
        (collect e date).1.cols.filter (fun c => c ∉ COLUMN_ORDER)) ∧
    (fullSheetCols (collect e date).1.cols =
      COLUMN_ORDER.filter
          (fun c => c ∈ fullSheetCols (collect e date).1.cols) ++
        (fullSheetCols (collect e date).1.cols).filter
          (fun c => c ∉ COLUMN_ORDER)) ∧
    (∀ inv : String,
      rankingSheetCols (collect e date).1.cols inv =
        (RANKING_COLUMN_ORDER ++ [inv]).filter
            (fun c => c ∈ rankingSheetCols (collect e date).1.cols inv) ++
          (rankingSheetCols (collect e date).1.cols inv).filter
            (fun c => c ∉ RANKING_COLUMN_ORDER ++ [inv])) := by
  refine ⟨?_, ?_, ?_⟩
  · rcases collect_cols_cases e date with h | h <;> rw [h]
    · simp
    · rw [finalCols_eq]
      decide
  · exact filter_canonical COLUMN_ORDER (collect e date).1.cols
  · intro inv
    exact filter_canonical (RANKING_COLUMN_ORDER ++ [inv]) (collect e date).1.cols

-- ── C2: the retry wrapper ────────────────────────────────────────────────

theorem retryGo_all_fail {α : Type} (f : ℕ → Attempt α) (e : α) (base : ℚ)
    (maxR : ℕ) :
    ∀ rem att, att + rem = maxR →
      (∀ i, att ≤ i → i < maxR → attemptFails (f i) = true) →
      retryGo f e base maxR rem att = (e, retryDelays f base att (rem - 1)) := by
  intro rem
  induction rem with
  | zero =>
    intro att _ _
    simp [retryGo, retryDelays]
  | succ n ih =>
    intro att hsum hfail
    have hfa := hfail att le_rfl (by omega)
    cases hf : f att with
    | ok a => rw [hf] at hfa; simp [attemptFails] at hfa
    | timeout =>
      simp only [retryGo, hf]
      by_cases hl : att = maxR - 1
      · have hn0 : n = 0 := by omega
        subst hn0
        rw [if_pos hl]
        simp [retryDelays]
      · rw [if_neg hl]
        rw [ih (att + 1) (by omega) (fun i h1 h2 => hfail i (by omega) h2)]
        have hn : n = (n - 1) + 1 := by omega
        simp only [retryDelays, Nat.succ_sub_one]
        conv_rhs => rw [hn, List.range'_succ]
        rw [List.map_cons]
        simp [delayOf, hf]
    | exc =>
      simp only [retryGo, hf]
      by_cases hl : att = maxR - 1
      · have hn0 : n = 0 := by omega
        subst hn0
        rw [if_pos hl]
        simp [retryDelays]
      · rw [if_neg hl]
        rw [ih (att + 1) (by omega) (fun i h1 h2 => hfail i (by omega) h2)]
        have hn : n = (n - 1) + 1 := by omega
        simp only [retryDelays, Nat.succ_sub_one]
        conv_rhs => rw [hn, List.range'_succ]
        rw [List.map_cons]
        simp [delayOf, hf]

theorem retryGo_success {α : Type} (f : ℕ → Attempt α) (e : α) (base : ℚ)
    (maxR : ℕ) (a : α) (hok : f (maxR - 1) = Attempt.ok a) :
    ∀ rem att, att + rem = maxR → 1 ≤ rem →
      (∀ i, att ≤ i → i < maxR - 1 → attemptFails (f i) = true) →
      retryGo f e base maxR rem att =
        (a, retryDelays f base att (maxR - 1 - att)) := by
  intro rem
  induction rem with
  | zero => intro att _ h1 _; omega
  | succ n ih =>
    intro att hsum _ hfail
    by_cases hl : att = maxR - 1
    · have hval : f att = Attempt.ok a := by rw [hl, hok]
      simp only [retryGo, hval]
      have h0 : maxR - 1 - att = 0 := by omega
      rw [h0]
      simp [retryDelays]
    · have hlt : att < maxR - 1 := by omega
      have hfa := hfail att le_rfl hlt
      cases hf : f att with
      | ok b => rw [hf] at hfa; simp [attemptFails] at hfa
      | timeout =>
        simp only [retryGo, hf]
        rw [if_neg hl]
        rw [ih (att + 1) (by omega) (by omega) (fun i h1 h2 => hfail i (by omega) h2)]
        have hn : maxR - 1 - att = (maxR - 1 - (att + 1)) + 1 := by omega
        simp only [retryDelays]
        conv_rhs => rw [hn, List.range'_succ]
        rw [List.map_cons]
        simp [delayOf, hf]
      | exc =>
        simp only [retryGo, hf]
        rw [if_neg hl]
        rw [ih (att + 1) (by omega) (by omega) (fun i h1 h2 => hfail i (by omega) h2)]
        have hn : maxR - 1 - att = (maxR - 1 - (att + 1)) + 1 := by omega
        simp only [retryDelays]
        conv_rhs => rw [hn, List.range'_succ]
        rw [List.map_cons]
        simp [delayOf, hf]

/-- Counterexample to C2 as stated: with three configured attempts and a
function that times out twice and then succeeds, the wrapper does return the
success — but the two sleeps are both the constant base delay
(`[0.5, 0.5]`), not a doubling backoff (`[0.5, 1.0]`): the timeout branch of
`_retry` sleeps `RETRY_BASE_DELAY` without the `2 ** attempt` factor. -/
theorem c2_counterexample :
    retryCall (fun i => if i = 2 then Attempt.ok (7 : ℕ) else Attempt.timeout)
        0 RETRY_BASE_DELAY 3 =
      (7, [RETRY_BASE_DELAY, RETRY_BASE_DELAY]) ∧
    [RETRY_BASE_DELAY, RETRY_BASE_DELAY] ≠
      [RETRY_BASE_DELAY * 2 ^ 0, RETRY_BASE_DELAY * 2 ^ 1] := by
  constructor
  · have h := retryGo_success
      (fun i => if i = 2 then Attempt.ok (7 : ℕ) else Attempt.timeout)
      0 RETRY_BASE_DELAY 3 7 (by decide) 3 0 (by omega) (by omega)
      (fun i _ h2 => by interval_cases i <;> rfl)
    unfold retryCall
    rw [h]
    simp [retryDelays, delayOf, List.range']
  · norm_num [RETRY_BASE_DELAY]

/-- C2 (amended): for every wrapped function and retry bound `N ≥ 1`: if the
function fails on the first `N − 1` attempts and succeeds on the `N`-th, the
wrapper returns that result after sleeping once per failed attempt — the
constant base delay after a timeout and `base · 2^attempt` (doubling) after
an exception, as recorded by `retryDelays`; if the function fails on every
attempt, the wrapper returns the empty-table fallback after the `N`
configured attempts, with no sleep after the final attempt, and never raises
(the model is a total function). -/
theorem c2_retry_amended {α : Type} (f : ℕ → Attempt α) (e : α) (base : ℚ)
    (N : ℕ) (hN : 1 ≤ N) :
    (∀ a : α, (∀ i, i < N - 1 → attemptFails (f i) = true) →
        f (N - 1) = Attempt.ok a →
        retryCall f e base N = (a, retryDelays f base 0 (N - 1))) ∧
    ((∀ i, i < N → attemptFails (f i) = true) →
        retryCall f e base N = (e, retryDelays f base 0 (N - 1))) := by
  constructor
  · intro a hfail hok
    unfold retryCall
    have h := retryGo_success f e base N a hok N 0 (by omega) hN
      (fun i _ h2 => hfail i h2)
    simpa using h
  · intro hfail
    unfold retryCall
    have h := retryGo_all_fail f e base N N 0 (by omega) (fun i _ h2 => hfail i h2)
    exact h

/-- Witness for C2 (amended): with the configured bound `MAX_RETRIES = 2`
and a function that raises once then succeeds, the wrapper returns the
success after a single backoff sleep of the base delay. -/
theorem c2_retry_amended_witness :
    retryCall (fun i => if i = 1 then Attempt.ok (5 : ℕ) else Attempt.exc)
        0 RETRY_BASE_DELAY MAX_RETRIES = (5, [RETRY_BASE_DELAY]) := by
  have h := (c2_retry_amended
      (fun i => if i = 1 then Attempt.ok (5 : ℕ) else Attempt.exc)
      0 RETRY_BASE_DELAY MAX_RETRIES (by decide)).1 5 (by decide) (by decide)
  rw [h]
  simp [retryDelays, delayOf, MAX_RETRIES, List.range']

-- ── C10: investor columns and zero-filled empty fetches ──────────────────

theorem alookup_map_pair (l : List String) (f : String → PVal) (x : String)
    (hx : x ∈ l) : alookup (l.map (fun i => (i, f i))) x = some (f x) := by
  induction l with
  | nil => cases hx
  | cons a as ih =>
    by_cases hax : a = x
    · subst hax
      unfold alookup
      rw [List.map_cons, List.find?_cons_of_pos _ (by simp)]
      rfl
    · unfold alookup at ih ⊢
      rw [List.map_cons, List.find?_cons_of_neg _ (by simp [hax])]
      rcases List.mem_cons.mp hx with h | h
      · exact absurd h.symm hax
      · exact ih h

theorem invCellOf_empty (nets : String → List (String × NetRow))
    (tickers : List String) (inv t : String) (h : nets inv = []) :
    invCellOf nets tickers inv t = PVal.num 0 := by
  unfold invCellOf
  rw [h]
  rfl

theorem invCellOf_zero_entry (nets : String → List (String × NetRow))
    (tickers : List String) (inv t : String) (nr : NetRow)
    (hl : alookup (nets inv) t = some nr) (h0 : nr.net = PVal.num 0) :
    invCellOf nets tickers inv t = PVal.num 0 := by
  have hraw : invCellRawOf nets inv t = PVal.num 0 := by
    unfold invCellRawOf
    rw [hl]
    simp [h0, pfillna]
  unfold invCellOf
  split
  · rfl
  · split
    · rw [hraw]
      simp [ptrunc, ratTrunc]
    · exact hraw

theorem marketRows_mem_collectFrames (e : Env) (m : String) (hm : m ∈ MARKETS)
    (hok : ((e.cap m).isEmpty || (e.ohlcv m).isEmpty) = false) :
    marketRows e m ∈ collectFrames e := by
  unfold collectFrames
  exact List.mem_filterMap.mpr ⟨m, hm, by simp [hok]⟩

theorem collect_cols_eq {e : Env} {date : String}
    (ht : (tradingCheck e date).1 = true)
    (hne : (collectFrames e).isEmpty = false) :
    (collect e date).1.cols = finalCols := by
  unfold collect
  rw [ht]
  simp [hne]

/-- C10: for every market that passes the cap/OHLCV check (on a run whose
trading-day check passed), the returned table's columns include all twelve
investor categories; every returned row of that market carries exactly the
twelve investor cells in configured order, an investor whose net-purchase
fetch came back empty contributes the value 0 for every ticker of the
market, and an investor whose fetch reported a true zero net purchase for
the row's ticker contributes the same value 0 — the two are
indistinguishable in the output. -/
theorem c10_investor_columns (e : Env) (date : String) (m : String)
    (hm : m ∈ MARKETS) (hcap : (e.cap m).isEmpty = false)
    (hoh : (e.ohlcv m).isEmpty = false)
    (ht : (tradingCheck e date).1 = true) :
    (∀ inv ∈ INVESTORS, inv ∈ (collect e date).1.cols) ∧
    (∀ r ∈ (collect e date).1.rows, r.market = m →
      r.invs.map Prod.fst = INVESTORS ∧
      ∀ inv ∈ INVESTORS,
        (e.net m inv = [] → alookup r.invs inv = some (PVal.num 0)) ∧
        (∀ nr : NetRow, alookup (e.net m inv) r.ticker = some nr →
          nr.net = PVal.num 0 → alookup r.invs inv = some (PVal.num 0))) := by
  have hok : ((e.cap m).isEmpty || (e.ohlcv m).isEmpty) = false := by
    rw [hcap, hoh]
    rfl
  have hframe := marketRows_mem_collectFrames e m hm hok
  have hne : (collectFrames e).isEmpty = false := by
    apply Bool.eq_false_iff.mpr
    simp only [ne_eq, List.isEmpty_iff]
    exact List.ne_nil_of_mem hframe
  constructor
  · intro inv hinv
    rw [collect_cols_eq ht hne, finalCols_eq]
    unfold COLUMN_ORDER
    exact List.mem_append_right _ hinv
  · intro r hr hrm
    obtain ⟨m', hm', hok', hmem', _⟩ := mem_collect_rows hr
    have hrm' : r.market = m' := mem_marketRows_market hmem'
    have hmm : m' = m := by rw [← hrm', hrm]
    rw [hmm] at hmem'
    unfold marketRows marketRowsOf at hmem'
    obtain ⟨p, hp, hbuild⟩ := List.mem_map.mp hmem'
    have hinvs : r.invs = INVESTORS.map (fun inv =>
        (inv, invCellOf (e.net m) ((e.cap m).map Prod.fst) inv p.1)) := by
      rw [← hbuild]
      rfl
    have htick : r.ticker = p.1 := by
      rw [← hbuild]
      rfl
    constructor
    · rw [hinvs, List.map_map]
      simp [Function.comp_def]
    · intro inv hinv
      have hlook : alookup r.invs inv =
          some (invCellOf (e.net m) ((e.cap m).map Prod.fst) inv p.1) := by
        rw [hinvs]
        exact alookup_map_pair INVESTORS _ inv hinv
      constructor
      · intro hempty
        rw [hlook, invCellOf_empty _ _ _ _ hempty]
      · intro nr hnr h0
        rw [htick] at hnr
        rw [hlook, invCellOf_zero_entry _ _ _ _ nr hnr h0]

/-- Witness for C10: in `envW` the KOSPI market passes the check on a
Friday, and the individual-investor column is present in the output. -/
theorem c10_investor_columns_witness :
    "개인" ∈ (collect envW "20251010").1.cols :=
  (c10_investor_columns envW "20251010" "KOSPI" (by decide) (by decide)
    (by decide) (by decide)).1 "개인" (by decide)

-- ── C7: a failed market is isolated ──────────────────────────────────────

theorem tradingCheck_probe_congr (e e' : Env) (date : String)
    (h : e'.probe = e.probe) : tradingCheck e' date = tradingCheck e date := by
  unfold tradingCheck
  rw [h]

theorem tradingCheck_calls (e : Env) (date : String) :
    (tradingCheck e date).2 = [] ∨
      (tradingCheck e date).2 = [ApiCall.probe date] := by
  cases h : parseDate date with
  | none => left; simp [tradingCheck, h]
  | some v =>
    obtain ⟨y, mo, d⟩ := v
    by_cases hw : 5 ≤ pyWeekday y mo d
    · left; simp [tradingCheck, h, hw]
    · cases hp : e.probe with
      | none => right; simp [tradingCheck, h, hw, hp]
      | some b => right; simp [tradingCheck, h, hw, hp]

theorem collect_snd (e : Env) (date : String) :
    (collect e date).2 =
      if (tradingCheck e date).1 then collectCalls e date
      else (tradingCheck e date).2 := by
  unfold collect
  by_cases ht : (tradingCheck e date).1
  · rw [ht]
    simp only [Bool.not_true, Bool.false_eq_true, if_false, if_true]
    split <;> rfl
  · rw [Bool.eq_false_iff.mpr ht]
    rfl

theorem marketRows_congr (e e' : Env) (m : String) (hc : e'.cap m = e.cap m)
    (ho : e'.ohlcv m = e.ohlcv m) (hn : e'.net m = e.net m)
    (htn : e'.tickerName = e.tickerName) :
    marketRows e' m = marketRows e m := by
  unfold marketRows
  rw [hc, ho, hn, htn]

theorem collectFrames_eq (e : Env) : collectFrames e =
    (if ((e.cap "KOSPI").isEmpty || (e.ohlcv "KOSPI").isEmpty) then []
     else [marketRows e "KOSPI"]) ++
    (if ((e.cap "KOSDAQ").isEmpty || (e.ohlcv "KOSDAQ").isEmpty) then []
     else [marketRows e "KOSDAQ"]) := by
  by_cases g1 : e.cap "KOSPI" = [] ∨ e.ohlcv "KOSPI" = [] <;>
    by_cases g2 : e.cap "KOSDAQ" = [] ∨ e.ohlcv "KOSDAQ" = [] <;>
      simp [collectFrames, MARKETS, List.filterMap_cons, g1, g2]

theorem filter_market_eq_nil (l : List Row) (m₀ m₂ : String)
    (hall : ∀ r ∈ l, r.market = m₀) (hne : m₀ ≠ m₂) :
    l.filter (fun r => r.market = m₂) = [] := by
  rw [List.filter_eq_nil_iff]
  intro r hr
  simp [hall r hr, hne]

theorem netFetch_not_mem_marketCalls_self (e : Env) (m inv : String)
    (hfail : ((e.cap m).isEmpty || (e.ohlcv m).isEmpty) = true) :
    ApiCall.netFetch m inv ∉ marketCalls e m := by
  unfold marketCalls
  rw [if_pos (by simp [hfail])]
  simp

theorem netFetch_not_mem_marketCalls_other (e : Env) (m m₂ inv : String)
    (hne : m₂ ≠ m) : ApiCall.netFetch m inv ∉ marketCalls e m₂ := by
  unfold marketCalls
  intro h
  rcases List.mem_append.mp h with h | h
  · simp at h
  · split at h
    · cases h
    · rcases List.mem_append.mp h with h | h
      · obtain ⟨inv₂, _, heq⟩ := List.mem_map.mp h
        injection heq with h1 _
        exact hne h1
      · obtain ⟨t, _, heq⟩ := List.mem_map.mp h
        cases heq

/-- C7: when one market's cap or OHLCV fetch came back empty, no row of
that market appears in the final output, its investor loop issues no
net-purchase fetch at all, and for every other market the rows produced are
identical to those of any run in which the failed market's responses are
arbitrary (for example successful), provided the probe and the other
markets' responses agree. -/
theorem c7_market_isolation (e e' : Env) (date m : String) (hm : m ∈ MARKETS)
    (hfail : ((e.cap m).isEmpty || (e.ohlcv m).isEmpty) = true)
    (hpr : e'.probe = e.probe)
    (hcap : ∀ m₂, m₂ ≠ m → e'.cap m₂ = e.cap m₂)
    (hohl : ∀ m₂, m₂ ≠ m → e'.ohlcv m₂ = e.ohlcv m₂)
    (hnet : ∀ m₂, m₂ ≠ m → e'.net m₂ = e.net m₂)
    (htn : e'.tickerName = e.tickerName) :
    (∀ r ∈ (collect e date).1.rows, r.market ≠ m) ∧
    (∀ inv : String, ApiCall.netFetch m inv ∉ (collect e date).2) ∧
    (∀ m₂, m₂ ≠ m →
      (collect e' date).1.rows.filter (fun r => r.market = m₂) =
        (collect e date).1.rows.filter (fun r => r.market = m₂)) := by
  have htc : tradingCheck e' date = tradingCheck e date :=
    tradingCheck_probe_congr e e' date hpr
  refine ⟨?_, ?_, ?_⟩
  · intro r hr hcontra
    obtain ⟨m'', hm'', hok'', hmem'', _⟩ := mem_collect_rows hr
    have hmkt : r.market = m'' := mem_marketRows_market hmem''
    rw [hcontra] at hmkt
    rw [← hmkt] at hok''
    rw [hfail] at hok''
    cases hok''
  · intro inv
    rw [collect_snd]
    split
    · intro h
      unfold collectCalls at h
      rcases List.mem_append.mp h with h | h
      · rcases tradingCheck_calls e date with hc | hc <;> rw [hc] at h <;> simp at h
      · simp only [MARKETS, List.map_cons, List.map_nil, List.flatten_cons,
          List.flatten_nil, List.append_nil, List.mem_append] at h
        have hKorD : m = "KOSPI" ∨ m = "KOSDAQ" := by simpa [MARKETS] using hm
        rcases hKorD with hK | hK <;> subst hK <;> rcases h with h | h
        · exact netFetch_not_mem_marketCalls_self e _ inv hfail h
        · exact netFetch_not_mem_marketCalls_other e _ _ inv (by decide) h
        · exact netFetch_not_mem_marketCalls_other e _ _ inv (by decide) h
        · exact netFetch_not_mem_marketCalls_self e _ inv hfail h
    · intro h
      rcases tradingCheck_calls e date with hc | hc <;> rw [hc] at h <;> simp at h
  · intro m₂ hne
    by_cases ht : (tradingCheck e date).1 = true
    · have ht' : (tradingCheck e' date).1 = true := by rw [htc]; exact ht
      rw [collect_rows_eq ht, collect_rows_eq ht']
      have hKorD : m = "KOSPI" ∨ m = "KOSDAQ" := by simpa [MARKETS] using hm
      rcases hKorD with hK | hK <;> subst hK
      · -- KOSPI failed
        have hDc := hcap "KOSDAQ" (by decide)
        have hDo := hohl "KOSDAQ" (by decide)
        have hDn := hnet "KOSDAQ" (by decide)
        have hDr := marketRows_congr e e' "KOSDAQ" hDc hDo hDn htn
        have hA : (((if ((e'.cap "KOSPI").isEmpty || (e'.ohlcv "KOSPI").isEmpty) then []
            else [marketRows e' "KOSPI"]) : List (List Row)).flatten.filter
              (fun r => pgt0 r.volume)).filter (fun r => r.market = m₂) = [] := by
          apply filter_market_eq_nil _ "KOSPI" m₂
          · intro r hr
            have hr2 := List.mem_of_mem_filter hr
            split at hr2
            · cases hr2
            · simp only [List.flatten_cons, List.flatten_nil, List.append_nil] at hr2
              exact mem_marketRows_market hr2
          · exact fun hcon => hne hcon.symm
        rw [collectFrames_eq e, collectFrames_eq e', hDc, hDo, hDr, if_pos hfail]
        simp only [List.nil_append, List.append_nil, List.flatten_append,
          List.flatten_nil, List.filter_append, List.filter_nil]
        rw [hA]
        simp
      · -- KOSDAQ failed
        have hDc := hcap "KOSPI" (by decide)
        have hDo := hohl "KOSPI" (by decide)
        have hDn := hnet "KOSPI" (by decide)
        have hDr := marketRows_congr e e' "KOSPI" hDc hDo hDn htn
        have hA : (((if ((e'.cap "KOSDAQ").isEmpty || (e'.ohlcv "KOSDAQ").isEmpty) then []
            else [marketRows e' "KOSDAQ"]) : List (List Row)).flatten.filter
              (fun r => pgt0 r.volume)).filter (fun r => r.market = m₂) = [] := by
          apply filter_market_eq_nil _ "KOSDAQ" m₂
          · intro r hr
            have hr2 := List.mem_of_mem_filter hr
            split at hr2
            · cases hr2
            · simp only [List.flatten_cons, List.flatten_nil, List.append_nil] at hr2
              exact mem_marketRows_market hr2
          · exact fun hcon => hne hcon.symm
        rw [collectFrames_eq e, collectFrames_eq e', hDc, hDo, hDr, if_pos hfail]
        simp only [List.nil_append, List.append_nil, List.flatten_append,
          List.flatten_nil, List.filter_append, List.filter_nil]
        rw [hA]
        simp
    · have htf : (tradingCheck e date).1 = false := Bool.eq_false_iff.mpr ht
      have htf' : (tradingCheck e' date).1 = false := by rw [htc]; exact htf
      rw [collect_rows_empty_of_not_trading htf,
        collect_rows_empty_of_not_trading htf']



/-- Witness for C7: the KOSDAQ rows collected while KOSPI's fetch failed are
identical to the KOSDAQ rows of the run in which KOSPI succeeded. -/
theorem c7_market_isolation_witness :
    (collect envKospiUp "20251010").1.rows.filter (fun r => r.market = "KOSDAQ") =
      (collect envKospiDown "20251010").1.rows.filter
        (fun r => r.market = "KOSDAQ") :=
  (c7_market_isolation envKospiDown envKospiUp "20251010" "KOSPI" (by decide)
    (by decide) rfl
    (fun m₂ h => by simp [envKospiUp, h])
    (fun m₂ h => by simp [envKospiUp, h])
    (fun _ _ => rfl) rfl).2.2 "KOSDAQ" (by decide)

-- ── C4: the comma-format / to_numeric round trip ─────────────────────────

theorem digitChar_roundtrip : ∀ d, d < 10 →
    charDigit (digitChar d) = d ∧ digitChar d ≠ ',' ∧
      isDigitChar (digitChar d) = true := by decide

theorem filter_group3LE (l : List Char) (k : ℕ) (hl : ',' ∉ l) :
    (group3LE l k).filter (fun c => c ≠ ',') = l := by
  induction l generalizing k with
  | nil => rfl
  | cons c rest ih =>
    have hc : c ≠ ',' := fun h => hl (h ▸ List.mem_cons_self c rest)
    have hrest : ',' ∉ rest := fun h => hl (List.mem_cons_of_mem _ h)
    unfold group3LE
    by_cases hk : k = 3
    · rw [if_pos hk]
      simp [List.filter_cons, hc]
      simpa using ih 1 hrest
    · rw [if_neg hk]
      simp [List.filter_cons, hc]
      simpa using ih (k + 1) hrest

theorem digitsBE_mem (n : ℕ) (c : Char) (hc : c ∈ digitsBE n) :
    ∃ d, d < 10 ∧ c = digitChar d := by
  unfold digitsBE at hc
  by_cases hn : n = 0
  · rw [if_pos hn] at hc
    refine ⟨0, by norm_num, ?_⟩
    rw [List.mem_singleton.mp hc]
    decide
  · rw [if_neg hn] at hc
    rw [List.mem_reverse] at hc
    obtain ⟨d, hd, rfl⟩ := List.mem_map.mp hc
    exact ⟨d, Nat.digits_lt_base (by norm_num) hd, rfl⟩

theorem digitsBE_no_comma (n : ℕ) : ',' ∉ digitsBE n := by
  intro h
  obtain ⟨d, hd, heq⟩ := digitsBE_mem n ',' h
  exact (digitChar_roundtrip d hd).2.1 heq.symm

theorem digitsBE_all_digits (n : ℕ) : (digitsBE n).all isDigitChar = true := by
  rw [List.all_eq_true]
  intro c hc
  obtain ⟨d, hd, heq⟩ := digitsBE_mem n c hc
  rw [heq]
  exact (digitChar_roundtrip d hd).2.2

theorem digitsBE_ne_nil (n : ℕ) : digitsBE n ≠ [] := by
  unfold digitsBE
  by_cases hn : n = 0
  · rw [if_pos hn]
    simp
  · rw [if_neg hn]
    simp [Nat.digits_ne_nil_iff_ne_zero, hn]

theorem natOfDigitsBE_digitsBE (n : ℕ) : natOfDigitsBE (digitsBE n) = n := by
  by_cases hn : n = 0
  · subst hn
    decide
  · unfold natOfDigitsBE digitsBE
    rw [if_neg hn, List.map_reverse, List.reverse_reverse, List.map_map]
    have hmap : ∀ l : List ℕ, (∀ d ∈ l, d < 10) →
        l.map (charDigit ∘ digitChar) = l := by
      intro l
      induction l with
      | nil => intro _; rfl
      | cons d ds ih =>
        intro h
        rw [List.map_cons, ih (fun x hx => h x (List.mem_cons_of_mem _ hx)),
          show (charDigit ∘ digitChar) d = d from
            (digitChar_roundtrip d (h d (List.mem_cons_self _ _))).1]
    rw [hmap (Nat.digits 10 n)
      (fun d hd => Nat.digits_lt_base (by norm_num) hd), Nat.ofDigits_digits]

theorem isDigitChar_ne_minus {c : Char} (h : isDigitChar c = true) : c ≠ '-' := by
  intro heq
  subst heq
  simp [isDigitChar] at h

theorem parseIntStr_digits (l : List Char) (hne : l ≠ [])
    (hall : l.all isDigitChar = true) :
    parseIntStr ⟨l⟩ = some ((natOfDigitsBE l : ℕ) : ℤ) := by
  obtain ⟨c, cs, rfl⟩ := List.exists_cons_of_ne_nil hne
  have hc : isDigitChar c = true := by
    rw [List.all_cons] at hall
    exact (Bool.and_eq_true_iff.mp hall).1
  unfold parseIntStr
  show (if c = '-' then _ else _) = _
  rw [if_neg (by exact fun h => isDigitChar_ne_minus hc h), if_pos hall]

theorem parseIntStr_neg_digits (l : List Char) (hne : l ≠ [])
    (hall : l.all isDigitChar = true) :
    parseIntStr ⟨'-' :: l⟩ = some (-((natOfDigitsBE l : ℕ) : ℤ)) := by
  unfold parseIntStr
  show (if '-' = '-' then _ else _) = _
  rw [if_pos rfl, if_pos ⟨hne, hall⟩]

theorem parse_strip_commaFormat (n : ℤ) :
    parseIntStr (stripCommas (commaFormat n)) = some n := by
  have hgrp : ((group3LE (digitsBE n.natAbs).reverse 0).reverse).filter
      (fun c => c ≠ ',') = digitsBE n.natAbs := by
    rw [List.filter_reverse, filter_group3LE _ 0
      (by rw [List.mem_reverse]; exact digitsBE_no_comma n.natAbs),
      List.reverse_reverse]
  by_cases hn : n < 0
  · have hdata : (commaFormat n).data =
        '-' :: (group3LE (digitsBE n.natAbs).reverse 0).reverse := by
      unfold commaFormat
      rw [if_pos hn]
      rfl
    have hstrip : stripCommas (commaFormat n) = ⟨'-' :: digitsBE n.natAbs⟩ := by
      unfold stripCommas
      rw [hdata]
      simp only [List.filter_cons]
      rw [if_pos (by decide), hgrp]
    rw [hstrip, parseIntStr_neg_digits _ (digitsBE_ne_nil _) (digitsBE_all_digits _),
      natOfDigitsBE_digitsBE]
    congr 1
    omega
  · have hdata : (commaFormat n).data =
        (group3LE (digitsBE n.natAbs).reverse 0).reverse := by
      unfold commaFormat
      rw [if_neg hn]
      rfl
    have hstrip : stripCommas (commaFormat n) = ⟨digitsBE n.natAbs⟩ := by
      unfold stripCommas
      rw [hdata, hgrp]
    rw [hstrip, parseIntStr_digits _ (digitsBE_ne_nil _) (digitsBE_all_digits _),
      natOfDigitsBE_digitsBE]
    congr 1
    omega

theorem abs_roundHalfEven_sub_le (q : ℚ) : |(roundHalfEven q : ℚ) - q| ≤ 1/2 := by
  have h0 : (⌊q⌋ : ℚ) ≤ q := Int.floor_le q
  have h1 : q < ⌊q⌋ + 1 := Int.lt_floor_add_one q
  unfold roundHalfEven
  split_ifs with ha hb hc <;> rw [abs_le] <;> push_cast <;> constructor <;> linarith

theorem cell_bound (q : ℚ) :
    |(roundHalfEven (q / 100000000) : ℚ) * 100000000 - q| ≤ 100000000 / 2 := by
  have key : (roundHalfEven (q / 100000000) : ℚ) * 100000000 - q
      = ((roundHalfEven (q / 100000000) : ℚ) - q / 100000000) * 100000000 := by
    field_simp
  rw [key, abs_mul, abs_of_nonneg (by norm_num : (0:ℚ) ≤ 100000000)]
  have h := abs_roundHalfEven_sub_le (q / 100000000)
  linarith

theorem zfill6_of_length6 (s : String) (h : s.length = 6) : zfill6 s = s := by
  unfold zfill6
  rw [if_pos (le_of_eq h.symm)]

theorem digitsBE_length_le_three (n : ℕ) (h : n < 1000) :
    (digitsBE n).length ≤ 3 := by
  unfold digitsBE
  by_cases hn : n = 0
  · rw [if_pos hn]
    simp
  · rw [if_neg hn, List.length_reverse, List.length_map,
      Nat.digits_len 10 n (by norm_num) hn]
  -- log₁₀ n ≤ 2 for n < 1000
    have hlog : Nat.log 10 n < 3 :=
      (Nat.lt_pow_iff_log_lt (by norm_num) hn).mp (by norm_num; omega)
    omega

theorem digitsBE_length_ge_four (n : ℕ) (h : 1000 ≤ n) :
    4 ≤ (digitsBE n).length := by
  have hn : n ≠ 0 := by omega
  unfold digitsBE
  rw [if_neg hn, List.length_reverse, List.length_map,
    Nat.digits_len 10 n (by norm_num) hn]
  have hlog : 3 ≤ Nat.log 10 n :=
    (Nat.pow_le_iff_le_log (by norm_num) hn).mp (by norm_num; omega)
  omega

theorem group3LE_of_short (l : List Char) (k : ℕ) (h : l.length + k ≤ 3) :
    group3LE l k = l := by
  induction l generalizing k with
  | nil => rfl
  | cons c rest ih =>
    simp only [List.length_cons] at h
    unfold group3LE
    rw [if_neg (by omega), ih (k + 1) (by omega)]

theorem comma_mem_group3LE (l : List Char) (k : ℕ) (hk : k ≤ 3)
    (h : 3 - k < l.length) : ',' ∈ group3LE l k := by
  induction l generalizing k with
  | nil => simp at h
  | cons c rest ih =>
    simp only [List.length_cons] at h
    unfold group3LE
    by_cases hk3 : k = 3
    · rw [if_pos hk3]
      exact List.mem_cons_self _ _
    · rw [if_neg hk3]
      exact List.mem_cons_of_mem _ (ih (k + 1) (by omega) (by omega))

theorem parseIntStr_of_comma (l : List Char) (h : ',' ∈ l) :
    parseIntStr ⟨l⟩ = none := by
  cases l with
  | nil => cases h
  | cons c cs =>
    unfold parseIntStr
    show (if c = '-' then _ else _) = _
    by_cases hc : c = '-'
    · have hcs : ',' ∈ cs := by
        rcases List.mem_cons.mp h with h1 | h1
        · rw [hc] at h1
          cases h1
        · exact h1
      have hnd : ¬(cs ≠ [] ∧ cs.all isDigitChar = true) := by
        rintro ⟨-, hall⟩
        rw [List.all_eq_true] at hall
        have h2 := hall ',' hcs
        simp [isDigitChar] at h2
      rw [if_pos hc, if_neg hnd]
    · have hnd : ¬((c :: cs).all isDigitChar = true) := by
        intro hall
        rw [List.all_eq_true] at hall
        have h2 := hall ',' h
        simp [isDigitChar] at h2
      rw [if_neg hc, if_neg hnd]

theorem commaFormat_small (n : ℤ) (h : n.natAbs < 1000) :
    commaFormat n =
      (if n < 0 then "-" else "") ++ ⟨digitsBE n.natAbs⟩ := by
  unfold commaFormat
  rw [group3LE_of_short _ 0
    (by rw [List.length_reverse]; have := digitsBE_length_le_three _ h; omega),
    List.reverse_reverse]

theorem parseIntStr_commaFormat_small (n : ℤ) (h : n.natAbs < 1000) :
    parseIntStr (commaFormat n) = some n := by
  rw [commaFormat_small n h]
  by_cases hn : n < 0
  · rw [if_pos hn]
    have hstep : ("-" : String) ++ (⟨digitsBE n.natAbs⟩ : String) =
        ⟨'-' :: digitsBE n.natAbs⟩ := rfl
    rw [hstep,
      parseIntStr_neg_digits _ (digitsBE_ne_nil _) (digitsBE_all_digits _),
      natOfDigitsBE_digitsBE]
    congr 1
    omega
  · rw [if_neg hn]
    have hstep : ("" : String) ++ (⟨digitsBE n.natAbs⟩ : String) =
        ⟨digitsBE n.natAbs⟩ := rfl
    rw [hstep,
      parseIntStr_digits _ (digitsBE_ne_nil _) (digitsBE_all_digits _),
      natOfDigitsBE_digitsBE]
    congr 1
    omega

theorem parseIntStr_commaFormat_large (n : ℤ) (h : 1000 ≤ n.natAbs) :
    parseIntStr (commaFormat n) = none := by
  have hcm : ',' ∈ (group3LE (digitsBE n.natAbs).reverse 0).reverse := by
    rw [List.mem_reverse]
    refine comma_mem_group3LE _ 0 (by omega) ?_
    rw [List.length_reverse]
    have := digitsBE_length_ge_four _ h
    omega
  unfold commaFormat
  by_cases hn : n < 0
  · rw [if_pos hn]
    have hstep : ("-" : String) ++
        (⟨(group3LE (digitsBE n.natAbs).reverse 0).reverse⟩ : String) =
        ⟨'-' :: (group3LE (digitsBE n.natAbs).reverse 0).reverse⟩ := rfl
    rw [hstep]
    exact parseIntStr_of_comma _ (List.mem_cons_of_mem _ hcm)
  · rw [if_neg hn]
    have hstep : ("" : String) ++
        (⟨(group3LE (digitsBE n.natAbs).reverse 0).reverse⟩ : String) =
        ⟨(group3LE (digitsBE n.natAbs).reverse 0).reverse⟩ := rfl
    rw [hstep]
    exact parseIntStr_of_comma _ hcm

theorem parseIntStr_digits_str (s : String) (hne : s.data ≠ [])
    (hall : s.data.all isDigitChar = true) :
    parseIntStr s = some ((natOfDigitsBE s.data : ℕ) : ℤ) :=
  parseIntStr_digits s.data hne hall

theorem alookup_map_snd {α β : Type} (l : List (String × α)) (g : α → β)
    (k : String) :
    alookup (l.map (fun p => (p.1, g p.2))) k = (alookup l k).map g := by
  induction l with
  | nil => rfl
  | cons p ps ih =>
    unfold alookup at ih ⊢
    rw [List.map_cons]
    by_cases hk : p.1 = k
    · rw [List.find?_cons_of_pos _ (by simp [hk]),
        List.find?_cons_of_pos _ (by simp [hk])]
      rfl
    · rw [List.find?_cons_of_neg _ (by simp [hk]),
        List.find?_cons_of_neg _ (by simp [hk])]
      exact ih

theorem alookup_mem {α : Type} {l : List (String × α)} {k : String} {v : α}
    (h : alookup l k = some v) : (k, v) ∈ l := by
  unfold alookup at h
  obtain ⟨p, hfind⟩ : ∃ p, l.find? (fun p => p.1 = k) = some p := by
    cases hf : l.find? (fun p => p.1 = k) with
    | none => rw [hf] at h; cases h
    | some p => exact ⟨p, rfl⟩
  rw [hfind] at h
  have hp1 : p.1 = k := by simpa using List.find?_some hfind
  have hpm : p ∈ l := List.mem_of_find?_eq_some hfind
  have hv : p.2 = v := by simpa using h
  rw [← hp1, ← hv, Prod.mk.eta]
  exact hpm

theorem alookup_isSome_of_mem_fst {α : Type} {l : List (String × α)}
    {k : String} (h : k ∈ l.map Prod.fst) : ∃ v, alookup l k = some v := by
  induction l with
  | nil => simp at h
  | cons p ps ih =>
    unfold alookup at ih ⊢
    by_cases hk : p.1 = k
    · rw [List.find?_cons_of_pos _ (by simp [hk])]
      exact ⟨p.2, rfl⟩
    · rw [List.find?_cons_of_neg _ (by simp [hk])]
      rw [List.map_cons] at h
      rcases List.mem_cons.mp h with h1 | h1
      · exact absurd h1.symm hk
      · exact ih h1

theorem optMap_format (l : List (String × PVal))
    (hf : ∀ p ∈ l, pIsFinite p.2 = true) :
    optMap (fun p => (format_eok p.2).map (fun s => (p.1, s))) l
      = some (l.map (fun p => (p.1, formattedCell p.2))) := by
  induction l with
  | nil => rfl
  | cons p ps ih =>
    have hp := hf p (List.mem_cons_self _ _)
    have hfmt : format_eok p.2 = some (formattedCell p.2) := by
      cases hv : p.2 with
      | num x => rfl
      | nan => rfl
      | inf => rw [hv] at hp; simp [pIsFinite] at hp
      | ninf => rw [hv] at hp; simp [pIsFinite] at hp
    unfold optMap
    rw [ih (fun q hq => hf q (List.mem_cons_of_mem _ hq)), hfmt]
    rfl

theorem writeFull_eq (rows : List Row)
    (hfin : ∀ r ∈ rows, ∀ p ∈ r.invs, pIsFinite p.2 = true) :
    writeFull rows = some (rows.map (fun r =>
      { ticker := zfill6 r.ticker
        cells := r.invs.map (fun p => (p.1, formattedCell p.2)) })) := by
  induction rows with
  | nil => rfl
  | cons r rs ih =>
    have h1 : writeRowFull r = some
        { ticker := zfill6 r.ticker
          cells := r.invs.map (fun p => (p.1, formattedCell p.2)) } := by
      unfold writeRowFull
      rw [optMap_format r.invs (hfin r (List.mem_cons_self _ _))]
      rfl
    have h2 := ih (fun r' h => hfin r' (List.mem_cons_of_mem _ h))
    unfold writeFull at h2 ⊢
    unfold optMap
    rw [h1, h2]
    rfl

theorem readColumn_length (col : List String) :
    (readColumn col).length = col.length := by
  unfold readColumn
  split <;> simp

theorem to_numeric_investor_length (col : List XCell) :
    (to_numeric_investor col).length = col.length := by
  unfold to_numeric_investor
  split <;> simp

/-- C4 (amended): a collected table (six-character all-digit tickers,
finite investor cells, uniform investor columns) written to the
spreadsheet and reloaded via the dashboard's loader keeps its row count,
but `pd.read_excel`'s type inference changes the values: the all-digit
ticker column reloads as numbers — each ticker becomes the integer value of
its digits, losing leading zeros — and an investor column reloads in one of
two ways.  When every formatted cell of the column is comma-free (every
rounded hundred-million amount has magnitude below 1000), the column
reloads with a numeric dtype and `to_numeric_investor`'s dtype branch
returns it unscaled, in hundred-million units.  Only when some cell
carries a thousands separator does the column stay textual and the
comma-strip-and-rescale path run, and there the reloaded value equals
`round(v / 1e8) * 1e8`, within half a hundred-million unit of the
pre-format value. -/
theorem c4_round_trip_amended (rows : List Row) (names : List String)
    (hlen : ∀ r ∈ rows, r.ticker.length = 6)
    (hdig : ∀ r ∈ rows, r.ticker.data.all isDigitChar = true)
    (hnames : ∀ r ∈ rows, r.invs.map Prod.fst = names)
    (hfin : ∀ r ∈ rows, ∀ p ∈ r.invs, pIsFinite p.2 = true) :
    ∃ sheet, writeFull rows = some sheet ∧
      sheet.length = rows.length ∧
      (loadTickers sheet).length = rows.length ∧
      loadTickers sheet =
        rows.map (fun r => XCell.num ((natOfDigitsBE r.ticker.data : ℕ) : ℚ)) ∧
      ∀ inv ∈ names,
        (to_numeric_investor (loadInvCol sheet inv)).length = rows.length ∧
        ((∀ r ∈ rows, ∀ x : ℚ, alookup r.invs inv = some (PVal.num x) →
            (roundHalfEven (x / 100000000)).natAbs < 1000) →
          List.Forall₂ (fun (r : Row) (q : ℚ) =>
            ∀ x : ℚ, alookup r.invs inv = some (PVal.num x) →
              q = (roundHalfEven (x / 100000000) : ℚ))
            rows (to_numeric_investor (loadInvCol sheet inv))) ∧
        ((∃ r ∈ rows, ∃ x : ℚ, alookup r.invs inv = some (PVal.num x) ∧
            1000 ≤ (roundHalfEven (x / 100000000)).natAbs) →
          List.Forall₂ (fun (r : Row) (q : ℚ) =>
            ∀ x : ℚ, alookup r.invs inv = some (PVal.num x) →
              q = (roundHalfEven (x / 100000000) : ℚ) * 100000000 ∧
              |q - x| ≤ 100000000 / 2)
            rows (to_numeric_investor (loadInvCol sheet inv))) := by
  refine ⟨rows.map (fun r =>
      { ticker := zfill6 r.ticker
        cells := r.invs.map (fun p => (p.1, formattedCell p.2)) }),
    writeFull_eq rows hfin, by simp, ?_, ?_, ?_⟩
  case _ =>
    unfold loadTickers
    rw [readColumn_length]
    simp [sheetTickerCol]
  case _ =>
    have hdne : ∀ r ∈ rows, r.ticker.data ≠ [] := by
      intro r hr hnil
      have h6 := hlen r hr
      rw [show r.ticker.length = r.ticker.data.length from rfl, hnil] at h6
      cases h6
    have hparse : ∀ r ∈ rows,
        parseIntStr r.ticker = some ((natOfDigitsBE r.ticker.data : ℕ) : ℤ) :=
      fun r hr => parseIntStr_digits_str r.ticker (hdne r hr) (hdig r hr)
    have hcol : sheetTickerCol (rows.map (fun r =>
        ({ ticker := zfill6 r.ticker
           cells := r.invs.map (fun p => (p.1, formattedCell p.2)) } : SheetRow)))
        = rows.map Row.ticker := by
      unfold sheetTickerCol
      rw [List.map_map]
      exact List.map_congr_left (fun r hr => zfill6_of_length6 _ (hlen r hr))
    unfold loadTickers
    rw [hcol]
    unfold readColumn
    rw [if_pos (by
      rw [List.all_eq_true]
      intro s hs
      obtain ⟨r, hr, rfl⟩ := List.mem_map.mp hs
      rw [hparse r hr]
      rfl)]
    rw [List.map_map]
    refine List.map_congr_left (fun r hr => ?_)
    simp only [Function.comp]
    rw [hparse r hr]
    simp
  case _ =>
    intro inv hinv
    have hx : ∀ r ∈ rows, ∃ x : ℚ, alookup r.invs inv = some (PVal.num x) := by
      intro r hr
      have hmem : inv ∈ r.invs.map Prod.fst := by
        rw [hnames r hr]
        exact hinv
      obtain ⟨v, hv⟩ := alookup_isSome_of_mem_fst hmem
      have hfinv := hfin r hr (inv, v) (alookup_mem hv)
      cases hval : v with
      | num x => exact ⟨x, by rw [hv, hval]⟩
      | nan => rw [hval] at hfinv; simp [pIsFinite] at hfinv
      | inf => rw [hval] at hfinv; simp [pIsFinite] at hfinv
      | ninf => rw [hval] at hfinv; simp [pIsFinite] at hfinv
    have hcellstr : ∀ r ∈ rows, ∀ x : ℚ, alookup r.invs inv = some (PVal.num x) →
        (alookup (r.invs.map (fun p => (p.1, formattedCell p.2))) inv).getD ""
          = commaFormat (roundHalfEven (x / 100000000)) := by
      intro r hr x hxr
      rw [alookup_map_snd, hxr]
      rfl
    have hcolinv : sheetInvCol (rows.map (fun r =>
        ({ ticker := zfill6 r.ticker
           cells := r.invs.map (fun p => (p.1, formattedCell p.2)) } : SheetRow))) inv
        = rows.map (fun r =>
            (alookup (r.invs.map (fun p => (p.1, formattedCell p.2))) inv).getD "") := by
      unfold sheetInvCol
      rw [List.map_map]
      rfl
    refine ⟨?_, ?_, ?_⟩
    · rw [to_numeric_investor_length]
      unfold loadInvCol
      rw [readColumn_length, hcolinv, List.length_map]
    · intro hsmall
      unfold loadInvCol
      rw [hcolinv]
      unfold readColumn
      rw [if_pos (by
        rw [List.all_eq_true]
        intro s hs
        obtain ⟨r, hr, rfl⟩ := List.mem_map.mp hs
        obtain ⟨x, hxr⟩ := hx r hr
        rw [hcellstr r hr x hxr, parseIntStr_commaFormat_small _ (hsmall r hr x hxr)]
        rfl)]
      unfold to_numeric_investor
      rw [if_pos (by
        rw [List.all_eq_true]
        intro c hc
        obtain ⟨s, hsmem, rfl⟩ := List.mem_map.mp hc
        rfl)]
      rw [List.map_map, List.map_map, List.forall₂_map_right_iff,
        List.forall₂_same]
      intro r hr x hxr
      simp only [Function.comp]
      rw [hcellstr r hr x hxr,
        parseIntStr_commaFormat_small _ (hsmall r hr x hxr)]
      rfl
    · rintro ⟨r0, hr0, x0, hx0, hbig⟩
      unfold loadInvCol
      rw [hcolinv]
      unfold readColumn
      rw [if_neg (by
        intro hall
        rw [List.all_eq_true] at hall
        have h2 := hall _ (List.mem_map_of_mem _ hr0)
        rw [hcellstr r0 hr0 x0 hx0, parseIntStr_commaFormat_large _ hbig] at h2
        cases h2)]
      unfold to_numeric_investor
      rw [if_neg (by
        intro hall
        rw [List.all_eq_true] at hall
        have h2 := hall _ (List.mem_map_of_mem _ (List.mem_map_of_mem _ hr0))
        simp [XCell.isNum] at h2)]
      rw [List.map_map, List.map_map, List.forall₂_map_right_iff,
        List.forall₂_same]
      intro r hr x hxr
      simp only [Function.comp]
      rw [hcellstr r hr x hxr]
      have hp := parse_strip_commaFormat (roundHalfEven (x / 100000000))
      constructor
      · show (((parseIntStr (stripCommas
            (commaFormat (roundHalfEven (x / 100000000))))).map
              (fun n => (n : ℚ))).getD 0) * 100000000 = _
        rw [hp]
        rfl
      · show |(((parseIntStr (stripCommas
            (commaFormat (roundHalfEven (x / 100000000))))).map
              (fun n => (n : ℚ))).getD 0) * 100000000 - x| ≤ 100000000 / 2
        rw [hp]
        simpa using cell_bound x

/-- Counterexample to C4 as stated: writing the sample table (ticker
`"005930"`, one investor cell of 150,000,000 won, formatted as `"2"`) and
reloading it through the dashboard's loader does not invert the formatting.
The comma-free investor column reloads with a numeric dtype, so
`to_numeric_investor`'s dtype branch returns it unscaled — the cell comes
back as 2, which is not within half a hundred-million unit of 150,000,000 —
and the ticker column reloads as the number 5930, not the string
`"005930"`. -/
theorem c4_counterexample :
    (writeFull [rowSample]).map
        (fun sheet => to_numeric_investor (loadInvCol sheet "개인"))
      = some [(2 : ℚ)] ∧
    ¬ |(2 : ℚ) - 150000000| ≤ 100000000 / 2 ∧
    (writeFull [rowSample]).map loadTickers = some [XCell.num 5930] := by
  have hrhe : roundHalfEven ((150000000 : ℚ) / 100000000) = 2 := by
    have hq : (150000000 : ℚ) / 100000000 = 3 / 2 := by norm_num
    have hfl : ⌊(3 : ℚ) / 2⌋ = 1 := by
      rw [Int.floor_eq_iff]
      norm_num
    unfold roundHalfEven
    rw [hq, hfl]
    rw [if_neg (by norm_num), if_neg (by norm_num), if_neg (by decide)]
    decide
  have hd2 : digitsBE (2 : ℤ).natAbs = ['2'] := by
    show digitsBE 2 = ['2']
    unfold digitsBE
    rw [if_neg (by norm_num), Nat.digits_of_lt 10 2 (by norm_num) (by norm_num)]
    rfl
  have hcf2 : commaFormat 2 = "2" := by
    unfold commaFormat
    rw [hd2, if_neg (by decide)]
    rfl
  have hfc : formattedCell (PVal.num 150000000) = "2" := by
    show commaFormat (roundHalfEven ((150000000 : ℚ) / 100000000)) = "2"
    rw [hrhe]
    exact hcf2
  have hsheet : writeFull [rowSample] =
      some [{ ticker := "005930", cells := [("개인", "2")] }] := by
    rw [writeFull_eq [rowSample] (by decide)]
    simp only [rowSample, List.map_cons, List.map_nil]
    rw [hfc, zfill6_of_length6 _ (by decide)]
  refine ⟨?_, ?_, ?_⟩
  · rw [hsheet]
    simp only [Option.map_some']
    have hval : to_numeric_investor
        (loadInvCol [{ ticker := "005930", cells := [("개인", "2")] }] "개인")
        = [((2 : ℤ) : ℚ)] := rfl
    rw [hval]
    norm_num
  · intro hle
    rw [show (2 : ℚ) - 150000000 = -149999998 by norm_num, abs_neg,
      abs_of_nonneg (by norm_num : (0 : ℚ) ≤ 149999998)] at hle
    norm_num at hle
  · rw [hsheet]
    simp only [Option.map_some']
    have hval : loadTickers [{ ticker := "005930", cells := [("개인", "2")] }]
        = [XCell.num ((5930 : ℤ) : ℚ)] := rfl
    rw [hval]
    norm_num

/-- Witness for C4 (amended): the sample table satisfies all four shape
hypotheses and writes to a one-row sheet. -/
theorem c4_round_trip_amended_witness :
    (writeFull [rowSample]).map List.length = some 1 := by
  obtain ⟨sheet, hs, hslen, _⟩ :=
    c4_round_trip_amended [rowSample] ["개인"] (by decide) (by decide)
      (by decide) (by decide)
  rw [hs]
  simp [hslen]
